import Mathlib

/-!
Verification development for the `mda` mail-delivery-agent library.

The Rust sources are shallowly embedded: byte slices (`&[u8]`) and byte
vectors (`Vec<u8>`) become `List Nat` (each element a byte value < 256),
Rust `String`s become their UTF-8 byte lists, fallible code returns
`Option`/`Except`, and a Rust panic (`unwrap` on `None`, a failed
`assert!`, an out-of-bounds index) is modelled as `Option.none` at the
function result.  Loops are modelled either by structural recursion or by
fuel that is provably ample for the inputs used.  All concrete inputs in
the theorems are ASCII, for which the byte-level models of `to_lowercase`,
`char::is_whitespace`, and `from_utf8_lossy` agree exactly with Rust.
-/

set_option maxRecDepth 8192

namespace Mda

/-- Converts a Lean string (ASCII in all uses here) to its byte list. -/
def str2b (s : String) : List Nat := s.data.map Char.toNat

/-- ASCII lowercasing of a single byte (models `u8::to_ascii_lowercase` and,
on ASCII input, `str::to_lowercase`). -/
def toLowerByte (b : Nat) : Nat := if 65 ≤ b ∧ b ≤ 90 then b + 32 else b

/-- ASCII lowercasing of a byte sequence. -/
def lowerBytes (bs : List Nat) : List Nat := bs.map toLowerByte

/-- Bytes matched by the regex class `\s` (ASCII part: space, tab, newline,
vertical tab, form feed, carriage return). -/
def isWsByte (b : Nat) : Bool := b = 32 ∨ b = 9 ∨ b = 10 ∨ b = 11 ∨ b = 12 ∨ b = 13

/-- Bytes accepted by `char::is_whitespace` (ASCII range), used by
`str::trim`. -/
def isRustWsByte (b : Nat) : Bool := b = 32 ∨ b = 9 ∨ b = 10 ∨ b = 11 ∨ b = 12 ∨ b = 13

/-- ASCII alphanumeric bytes (`[[:alnum:]]`). -/
def isAlnumByte (b : Nat) : Bool :=
  (48 ≤ b ∧ b ≤ 57) ∨ (65 ≤ b ∧ b ≤ 90) ∨ (97 ≤ b ∧ b ≤ 122)

/-- Models `str::trim` on byte lists (exact for ASCII data). -/
def rustTrim (bs : List Nat) : List Nat :=
  ((bs.dropWhile isRustWsByte).reverse.dropWhile isRustWsByte).reverse

/-! ## decode.rs -/

/-- A base64 value, as produced by the 256-entry index table
(`BASE64_INDICES`): a numeric value 0–63, the pad symbol `=`, or
end of input. -/
inductive B64Val where
  | value (v : Nat)
  | pad
  | exhausted
deriving DecidableEq, Repr

/-- The `BASE64_INDICES` table as a function: `A`–`Z` ↦ 0–25, `a`–`z` ↦
26–51, `0`–`9` ↦ 52–61, `+` ↦ 62, `/` ↦ 63, `=` ↦ 64 (`PAD`), anything
else ↦ 99 (`INV`). -/
def base64Index (c : Nat) : Nat :=
  if 65 ≤ c ∧ c ≤ 90 then c - 65
  else if 97 ≤ c ∧ c ≤ 122 then c - 97 + 26
  else if 48 ≤ c ∧ c ≤ 57 then c - 48 + 52
  else if c = 43 then 62
  else if c = 47 then 63
  else if c = 61 then 64
  else 99

/-- Models `next_valid_base64_value`: skips bytes whose index is `INV` and
returns the first valid value or pad, together with the rest of the
iterator. -/
def next_valid_base64_value : List Nat → B64Val × List Nat
  | [] => (B64Val.exhausted, [])
  | c :: rest =>
    let b := base64Index c
    if b < 64 then (B64Val.value b, rest)
    else if b = 64 then (B64Val.pad, rest)
    else next_valid_base64_value rest

/-- Result of a decoding routine: `ok`, or `error` with the message used in
the source. -/
inductive DecodeOutcome where
  | ok
  | error (msg : String)
deriving DecidableEq, Repr

/-- How the quartet loop of `base64_decode_into_buf` ended: an early
`return Ok`, an early `return Err`, or a `break` carrying the number of
expected trailing paddings and the remaining input. -/
inductive B64Loop where
  | retOk
  | retErr (msg : String)
  | brk (expected : Nat) (rest : List Nat)
deriving DecidableEq, Repr

/-- The quartet loop of `base64_decode_into_buf`.  Byte arithmetic mirrors
the `u8` shifts of the source: `(c0 << 2) | (c1 >> 4)` is `c0 * 4 + c1 / 16`
(no wrap since `c0 < 64`), `(c1 << 4) | (c2 >> 2)` wraps to
`(c1 % 16) * 16 + c2 / 4`, and `(c2 << 6) | c3` wraps to
`(c2 % 4) * 64 + c3`.  The fuel only bounds the recursion; every
iteration consumes at least four input bytes, so `input.length + 1` is
always ample. -/
def b64Loop : Nat → List Nat → List Nat → B64Loop × List Nat
  | 0, _, out => (B64Loop.retErr "fuel exhausted", out)
  | fuel + 1, input, out =>
    match next_valid_base64_value input with
    | (B64Val.exhausted, _) => (B64Loop.retOk, out)
    | (B64Val.pad, _) => (B64Loop.retErr "Invalid base64 padding", out)
    | (B64Val.value c0, r0) =>
      match next_valid_base64_value r0 with
      | (B64Val.exhausted, _) => (B64Loop.retErr "Invalid base64 encoding", out)
      | (B64Val.pad, _) => (B64Loop.retErr "Invalid base64 padding", out)
      | (B64Val.value c1, r1) =>
        match next_valid_base64_value r1 with
        | (B64Val.exhausted, _) =>
          (B64Loop.retErr "Invalid base64 padding", out ++ [c0 * 4 + c1 / 16])
        | (B64Val.pad, r2) => (B64Loop.brk 1 r2, out ++ [c0 * 4 + c1 / 16])
        | (B64Val.value c2, r2) =>
          match next_valid_base64_value r2 with
          | (B64Val.exhausted, _) =>
            (B64Loop.retErr "Invalid base64 padding",
              out ++ [c0 * 4 + c1 / 16, c1 % 16 * 16 + c2 / 4])
          | (B64Val.pad, r3) =>
            (B64Loop.brk 0 r3, out ++ [c0 * 4 + c1 / 16, c1 % 16 * 16 + c2 / 4])
          | (B64Val.value c3, r3) =>
            b64Loop fuel r3
              (out ++ [c0 * 4 + c1 / 16, c1 % 16 * 16 + c2 / 4, c2 % 4 * 64 + c3])

/-- The trailing loop of `base64_decode_into_buf`: counts `=` bytes after
the break and fails on any remaining alphabet byte.  Returns the error (if
any) and the number of paddings found. -/
def b64TailLoop : List Nat → Nat → Option String × Nat
  | [], found => (none, found)
  | c :: rest, found =>
    if c = 61 then b64TailLoop rest (found + 1)
    else if base64Index c < 64 then
      (some "Unexpected characters after base64 padding", found)
    else b64TailLoop rest found

/-- Models `base64_decode_into_buf`.  The second component is the output
buffer after the call; as in the source, on error the already decoded
bytes are left appended to the buffer. -/
def base64_decode_into_buf (input output : List Nat) : DecodeOutcome × List Nat :=
  match b64Loop (input.length + 1) input output with
  | (B64Loop.retOk, o) => (DecodeOutcome.ok, o)
  | (B64Loop.retErr m, o) => (DecodeOutcome.error m, o)
  | (B64Loop.brk expected rest, o) =>
    match b64TailLoop rest 0 with
    | (some m, _) => (DecodeOutcome.error m, o)
    | (none, found) =>
      if found ≠ expected then (DecodeOutcome.error "Invalid base64 padding", o)
      else (DecodeOutcome.ok, o)

/-- Models `hexdigit_to_num`. -/
def hexdigit_to_num (a : Nat) : Option Nat :=
  if 48 ≤ a ∧ a ≤ 57 then some (a - 48)
  else
    let l := toLowerByte a
    if 97 ≤ l ∧ l ≤ 102 then some (l - 97 + 10)
    else none

/-- The outer loop of `qp_decode_into_buf`.  Each iteration copies bytes up
to the next `=` and then resolves the escape; every iteration consumes at
least one byte, so fuel `input.length + 1` is ample. -/
def qpLoop : Nat → List Nat → List Nat → List Nat
  | 0, _, out => out
  | fuel + 1, input, out =>
    let out' := out ++ input.takeWhile (fun b => b ≠ 61)
    match input.dropWhile (fun b => b ≠ 61) with
    | [] => out'
    | _ :: rest =>
      match rest with
      | [] => out' ++ [61]
      | first :: rest2 =>
        if first = 13 then
          match rest2 with
          | 10 :: rest3 => qpLoop fuel rest3 out'
          | _ => qpLoop fuel rest2 (out' ++ [61, 13])
        else if first = 10 then qpLoop fuel rest2 out'
        else
          match hexdigit_to_num first with
          | some fn =>
            match rest2 with
            | second :: rest3 =>
              match hexdigit_to_num second with
              | some sn => qpLoop fuel rest3 (out' ++ [fn * 16 + sn])
              | none => qpLoop fuel rest2 (out' ++ [61, first])
            | [] => qpLoop fuel rest2 (out' ++ [61, first])
          | none => qpLoop fuel rest2 (out' ++ [61, first])

/-- Models `qp_decode_into_buf`; the decoder never fails. -/
def qp_decode_into_buf (input output : List Nat) : List Nat :=
  qpLoop (input.length + 1) input output

/-! ## normalize.rs: parser data model -/

/-- Models `struct Part`: information about one part of a multi-part email.
Rust `Option<String>` fields become optional byte lists. -/
structure Part where
  encoding : Option (List Nat)
  content_type : Option (List Nat)
  charset : Option (List Nat)
  subpart_boundary : Option (List Nat)
deriving DecidableEq, Repr

/-- Models `Part::new()`. -/
def Part.new : Part := ⟨none, none, none, none⟩

/-- Models an `Element` recognized by the `EmailParser`. -/
inductive Element where
  | HeaderField (data : List Nat)
  | Body (data : List Nat) (encoding : Option (List Nat))
      (content_type : Option (List Nat)) (charset : Option (List Nat))
  | Verbatim (data : List Nat)
deriving DecidableEq, Repr

/-- The mutable state of `EmailParser` (the line iterator is passed
separately; the three compiled regexes are modelled as functions below).
`part_stack` keeps the Rust `Vec` order: the last list element is the top
of the stack. -/
structure ParserState where
  part_stack : List Part
  in_header : Bool
  active_boundary : List Nat
deriving DecidableEq, Repr

/-- Models `EmailParser::new`'s initial state: a single root part, header
phase, empty active boundary. -/
def initParserState : ParserState := ⟨[Part.new], true, []⟩

/-- Accumulator step for `SliceLines`: splits a buffer at each `\n`
(terminators kept); a trailing fragment without `\n` is yielded only if
non-empty. -/
def sliceLinesGo (acc : List Nat) : List Nat → List (List Nat)
  | [] => if acc = [] then [] else [acc.reverse]
  | b :: rest =>
    if b = 10 then (acc.reverse ++ [10]) :: sliceLinesGo [] rest
    else sliceLinesGo (b :: acc) rest

/-- Models the `SliceLines` iterator, fully elaborated to the list of the
lines it yields. -/
def sliceLines (buf : List Nat) : List (List Nat) := sliceLinesGo [] buf

/-- Models `vec_trim_end_newline`: removes trailing `\n`/`\r` bytes. -/
def vec_trim_end_newline (line : List Nat) : List Nat :=
  (line.reverse.dropWhile (fun b => b = 10 ∨ b = 13)).reverse

/-- Models `slice_trim_end_newline` (same computation on a slice). -/
def slice_trim_end_newline (line : List Nat) : List Nat :=
  (line.reverse.dropWhile (fun b => b = 10 ∨ b = 13)).reverse

/-- Models `is_boundary_line`: the line starts with `--`, the boundary is
non-empty, and the remainder of the line starts with the boundary bytes
(`starts_with`, not an exact match). -/
def is_boundary_line (line boundary : List Nat) : Bool :=
  line.take 2 = [45, 45] ∧ boundary ≠ [] ∧
    (line.drop 2).take boundary.length = boundary

/-- Whether a (already end-trimmed) line ends with `--`. -/
def endsWithDashes (line : List Nat) : Bool := line.reverse.take 2 = [45, 45]

/-! ### Models of the three compiled regexes

The regexes of `EmailParser::new` are hand-translated to matching
functions with the `regex` crate's semantics (leftmost match,
case-insensitive literals, greedy repetition).  Character classes below
are exactly those of the patterns. -/

/-- Case-insensitively matches a lowercase literal at the head of `s`,
returning the remainder on success. -/
def dropLitCI : List Nat → List Nat → Option (List Nat)
  | [], s => some s
  | _ :: _, [] => none
  | l :: ls, c :: cs => if toLowerByte c = l then dropLitCI ls cs else none

/-- Tries `Content-Transfer-Encoding:\s*([[:alnum:]-]+)` anchored at the
head of `s`, returning the capture. -/
def matchCteAt (s : List Nat) : Option (List Nat) :=
  match dropLitCI (str2b "content-transfer-encoding:") s with
  | none => none
  | some r =>
    let cap := (r.dropWhile isWsByte).takeWhile (fun b => isAlnumByte b ∨ b = 45)
    if cap = [] then none else some cap

/-- Unanchored leftmost search for the `content_encoding_regex`, as
`Regex::captures` performs. -/
def searchCte : List Nat → Option (List Nat)
  | [] => none
  | b :: rest =>
    match matchCteAt (b :: rest) with
    | some cap => some cap
    | none => searchCte rest

/-- Character class `[[:alnum:]'_,/:=\(\)\+\-\.\?]` of the boundary
pattern. -/
def isBoundaryTokenByte (b : Nat) : Bool :=
  isAlnumByte b ∨ b = 39 ∨ b = 95 ∨ b = 44 ∨ b = 47 ∨ b = 58 ∨ b = 61 ∨
    b = 40 ∨ b = 41 ∨ b = 43 ∨ b = 45 ∨ b = 46 ∨ b = 63

/-- Tries `boundary\s*=\s*"?([class]+)` anchored at the head of `s`,
returning the capture. -/
def matchBoundaryAt (s : List Nat) : Option (List Nat) :=
  match dropLitCI (str2b "boundary") s with
  | none => none
  | some r =>
    match r.dropWhile isWsByte with
    | 61 :: r2 =>
      let r3 := r2.dropWhile isWsByte
      let r4 := match r3 with | 34 :: t => t | _ => r3
      let cap := r4.takeWhile isBoundaryTokenByte
      if cap = [] then none else some cap
    | _ => none

/-- Models `boundary_regex`
(`^Content-Type:\s*multipart/.*boundary\s*=\s*"?([class]+)"?`): anchored
match; the greedy `.*` (which cannot cross `\n`) makes the last feasible
`boundary...` position win. -/
def captureBoundary (line : List Nat) : Option (List Nat) :=
  match dropLitCI (str2b "content-type:") line with
  | none => none
  | some r0 =>
    match dropLitCI (str2b "multipart/") (r0.dropWhile isWsByte) with
    | none => none
    | some rest =>
      let maxStart := (rest.takeWhile (fun b => b ≠ 10)).length
      ((List.range (maxStart + 1)).filterMap
        (fun i => matchBoundaryAt (rest.drop i))).getLast?

/-- Character class `[[:alnum:]_:\-\.]` of the charset capture. -/
def isCharsetTokenByte (b : Nat) : Bool :=
  isAlnumByte b ∨ b = 95 ∨ b = 58 ∨ b = 45 ∨ b = 46

/-- Models `content_type_regex`
(`^Content-Type:\s*([^;]+)\s*(?:;\s*charset\s*=\s*"?([class]+))?"?`).
Greedy `\s*` backtracks one byte when the first non-whitespace byte is `;`
or the rest is all whitespace, because `[^;]+` needs at least one byte;
group 1 then runs to the first `;` (or the end). -/
def captureContentType (line : List Nat) : Option (List Nat × Option (List Nat)) :=
  match dropLitCI (str2b "content-type:") line with
  | none => none
  | some rest =>
    if rest = [] then none
    else
      let w := (rest.takeWhile isWsByte).length
      if w = 0 ∧ rest.take 1 = [59] then none
      else
        let k := if w < rest.length ∧ (rest.drop w).take 1 ≠ [59] then w else w - 1
        let tail := rest.drop k
        let g1 := tail.takeWhile (fun b => b ≠ 59)
        let charset :=
          match tail.drop g1.length with
          | 59 :: r2 =>
            match dropLitCI (str2b "charset") (r2.dropWhile isWsByte) with
            | none => none
            | some r3 =>
              match r3.dropWhile isWsByte with
              | 61 :: r4 =>
                let r5 := r4.dropWhile isWsByte
                let r6 := match r5 with | 34 :: t => t | _ => r5
                let cap := r6.takeWhile isCharsetTokenByte
                if cap = [] then none else some cap
              | _ => none
          | _ => none
        some (g1, charset)

/-! ### Parser state operations -/

/-- Replaces the last element of a list (no-op on an empty list); used for
`part_stack.last_mut()` writes. -/
def updateLast (l : List Part) (p : Part) : List Part :=
  match l with
  | [] => []
  | [_] => [p]
  | x :: xs => x :: updateLast xs p

/-- Models the rescan loop of `end_part`:
`for p in part_stack.iter().rev() { if let Some(b) = &p.subpart_boundary { active = b } }`.
The list is bottom-first, so the loop visits `stack.reverse`; the last
assignment (the bottom-most part with a boundary) wins. -/
def rescanActive (stack : List Part) (active : List Nat) : List Nat :=
  stack.reverse.foldl
    (fun acc p => match p.subpart_boundary with | some b => b | none => acc) active

/-- Models `EmailParser::begin_part`.  `none` models the panic of
`part_stack.last().unwrap()` on an empty stack. -/
def begin_part (s : ParserState) : Option ParserState :=
  match s.part_stack.getLast? with
  | none => none
  | some part =>
    if part.subpart_boundary = some s.active_boundary then
      some { s with part_stack := s.part_stack ++ [Part.new] }
    else
      some { s with part_stack := updateLast s.part_stack Part.new }

/-- Models `EmailParser::end_part`: unconditionally pop, clear the new top
part's subpart boundary, then rescan the stack for the active boundary. -/
def end_part (s : ParserState) : ParserState :=
  let popped := s.part_stack.dropLast
  let popped :=
    match popped.getLast? with
    | some p => updateLast popped ({ p with subpart_boundary := none })
    | none => popped
  { s with part_stack := popped, active_boundary := rescanActive popped s.active_boundary }

/-- Models `EmailParser::update_active_part_from_header_field`; `none`
models the panic of `part_stack.last_mut().unwrap()` on an empty stack.
The three regexes are tried in the source's order (first wins). -/
def update_active_part_from_header_field (s : ParserState) (field : List Nat) :
    Option ParserState :=
  match s.part_stack.getLast? with
  | none => none
  | some part =>
    match searchCte field with
    | some enc =>
      let part' := { part with encoding := some (lowerBytes enc) }
      some { s with part_stack := updateLast s.part_stack part' }
    | none =>
      match captureBoundary field with
      | some b =>
        let part' := { part with subpart_boundary := some b }
        some { s with
               part_stack := updateLast s.part_stack part'
               active_boundary := b }
      | none =>
        match captureContentType field with
        | some (ty, ch) =>
          let part' :=
            { part with
              content_type := some (lowerBytes ty),
              charset := match ch with
                | some c => some (lowerBytes c)
                | none => part.charset }
          some { s with part_stack := updateLast s.part_stack part' }
        | none => some s

/-- Models `active_encoding` (`part_stack.last()?.encoding.clone()`). -/
def activeEncoding (s : ParserState) : Option (List Nat) :=
  s.part_stack.getLast?.bind (·.encoding)

/-- Models `active_content_type`. -/
def activeContentType (s : ParserState) : Option (List Nat) :=
  s.part_stack.getLast?.bind (·.content_type)

/-- Models `active_charset`. -/
def activeCharset (s : ParserState) : Option (List Nat) :=
  s.part_stack.getLast?.bind (·.charset)

/-! ### The iterator loop of `EmailParser::next` -/

/-- The code after the loop of `next`: emit in-progress data as a header
field or body (the `assert!(element.is_none())` panic is `none`), then run
the header-field side effects.  Returns the emitted element, the remaining
lines and the new state. -/
def finishElement (s : ParserState) (element : Option Element) (inprogress : List Nat)
    (lines : List (List Nat)) :
    Option (Option Element × List (List Nat) × ParserState) :=
  let elementResult : Option (Option Element) :=
    if inprogress ≠ [] then
      match element with
      | some _ => none
      | none =>
        some (some (if s.in_header then Element.HeaderField inprogress
          else Element.Body inprogress (activeEncoding s) (activeContentType s)
            (activeCharset s)))
    else some element
  match elementResult with
  | none => none
  | some el =>
    match el with
    | some (Element.HeaderField f) =>
      (update_active_part_from_header_field s f).map (fun s' => (el, lines, s'))
    | _ => some (el, lines, s)

/-- The `loop` inside `EmailParser::next`, consuming one line per
iteration.  `none` is a panic (empty-stack `unwrap`, the assert, or an
out-of-bounds `line[0]`, which never fires because `sliceLines` yields
non-empty lines). -/
def nextLoop (s : ParserState) (inprogress : List Nat) :
    List (List Nat) → Option (Option Element × List (List Nat) × ParserState)
  | [] => finishElement s none inprogress []
  | line :: rest =>
    match line with
    | [] => none
    | b :: _ =>
      if s.in_header then
        if b = 10 ∨ b = 13 then
          finishElement { s with in_header := false }
            (some (Element.Verbatim line)) inprogress rest
        else
          let inprogress' :=
            if b = 32 ∨ b = 9 then vec_trim_end_newline inprogress ++ line
            else line
          match rest.head? with
          | some next =>
            match next.head? with
            | none => none
            | some nb =>
              if nb ≠ 32 ∧ nb ≠ 9 then finishElement s none inprogress' rest
              else nextLoop s inprogress' rest
          | none => nextLoop s inprogress' rest
      else
        if is_boundary_line line s.active_boundary then
          if endsWithDashes (slice_trim_end_newline line) then
            finishElement (end_part s) (some (Element.Verbatim line)) inprogress rest
          else
            match begin_part s with
            | none => none
            | some s' =>
              finishElement { s' with in_header := true }
                (some (Element.Verbatim line)) inprogress rest
        else
          let inprogress' := inprogress ++ line
          match rest.head? with
          | some next =>
            if is_boundary_line next s.active_boundary then
              finishElement s none inprogress' rest
            else nextLoop s inprogress' rest
          | none => nextLoop s inprogress' rest

/-- Drives the parser to exhaustion, collecting all elements and the final
state.  `none` is a parser panic.  The fuel bounds the number of `next`
calls; each emitted element consumes at least one line, so
`lines.length + 1` is always ample. -/
def parseAllGo : Nat → List (List Nat) → ParserState →
    Option (List Element × ParserState)
  | 0, _, _ => none
  | fuel + 1, lines, s =>
    match nextLoop s [] lines with
    | none => none
    | some (none, _, s') => some ([], s')
    | some (some e, lines', s') =>
      (parseAllGo fuel lines' s').map (fun (es, s'') => (e :: es, s''))

/-- Parses a whole buffer: the element stream of `EmailParser::new(buf)`
driven to exhaustion, with the final parser state. -/
def parseAll (buf : List Nat) : Option (List Element × ParserState) :=
  let lines := sliceLines buf
  parseAllGo (lines.length + 1) lines initParserState

/-! ## normalize.rs: the normalizer

The `charset` crate is an external dependency; it is modelled as a
parameter `forLabel`: `forLabel label = none` models
`Charset::for_label` returning `None` (unknown label), and
`forLabel label = some dec` models a found charset whose
`decode` returns `Cow::Borrowed` (`dec run = none`, bytes kept) or
`Cow::Owned c` (`dec run = some c`, bytes replaced). -/

/-- The external charset facility (`Charset::for_label` plus `decode`). -/
abbrev ForLabel := List Nat → Option (List Nat → Option (List Nat))

/-- Models `Vec::resize(n, 0)`. -/
def resizeTo (n : Nat) (l : List Nat) : List Nat :=
  if l.length ≤ n then l ++ List.replicate (n - l.length) 0 else l.take n

/-- The `match encoding.unwrap().as_ref()` of `decode_text_data_to_buf`:
returns whether the result was an `Err` together with the output buffer
after the attempt. -/
def decodeResult (enc data out : List Nat) : Bool × List Nat :=
  if enc = str2b "base64" then
    match base64_decode_into_buf data out with
    | (DecodeOutcome.ok, o) => (false, o)
    | (DecodeOutcome.error _, o) => (true, o)
  else if enc = str2b "quoted-printable" then (false, qp_decode_into_buf data out)
  else if enc = str2b "8bit" ∨ enc = str2b "binary" then (false, out ++ data)
  else (true, out)

/-- Models `decode_text_data_to_buf`: decode per the declared transfer
encoding; on failure truncate back to the initial length and skip charset
conversion; if nothing was appended, copy the raw data; convert the
appended run with the declared charset (default `us-ascii`). -/
def decode_text_data_to_buf (forLabel : ForLabel) (data : List Nat)
    (encoding charset : Option (List Nat)) (out : List Nat) : List Nat :=
  let initial_len := out.length
  let step1 : List Nat × Bool :=
    match encoding with
    | some enc =>
      let (isErr, o) := decodeResult enc data out
      if isErr then (resizeTo initial_len o, false) else (o, true)
    | none => (out, true)
  let out1 := step1.1
  let should_convert_charset := step1.2
  let out2 := if out1.length = initial_len then out1 ++ data else out1
  if should_convert_charset then
    match forLabel (match charset with | some c => c | none => str2b "us-ascii") with
    | some dec =>
      match dec (out2.drop initial_len) with
      | some c => resizeTo initial_len out2 ++ c
      | none => out2
    | none => out2
  else out2

/-- Models `maybe_contains_encoded_word`: the bytes contain `?=`. -/
def maybe_contains_encoded_word : List Nat → Bool
  | 63 :: 61 :: _ => true
  | _ :: rest => maybe_contains_encoded_word rest
  | [] => false

/-- Tries the `ENCODED_WORD_WSP_REGEX` pattern
(`\?([^?]+)\?=\s*=\?([^?]+)\?`) anchored at the head; on success returns
the replacement `?$1?==?$2?` and the rest after the match. -/
def matchWspAt (s : List Nat) : Option (List Nat × List Nat) :=
  match s with
  | 63 :: rest =>
    let g1 := rest.takeWhile (fun b => b ≠ 63)
    if g1 = [] then none
    else
      match rest.drop g1.length with
      | 63 :: 61 :: r2 =>
        match r2.dropWhile isWsByte with
        | 61 :: 63 :: r3 =>
          let g2 := r3.takeWhile (fun b => b ≠ 63)
          if g2 = [] then none
          else
            match r3.drop g2.length with
            | 63 :: r4 => some ([63] ++ g1 ++ [63, 61, 61, 63] ++ g2 ++ [63], r4)
            | _ => none
        | _ => none
      | _ => none
  | _ => none

/-- Models `Regex::replace_all` for the whitespace-collapsing pattern: scan left
to right, splice the replacement at each non-overlapping match.  Each step
consumes at least one byte, so fuel `s.length + 1` is ample. -/
def replaceAllWsp : Nat → List Nat → List Nat
  | 0, s => s
  | _ + 1, [] => []
  | fuel + 1, b :: rest =>
    match matchWspAt (b :: rest) with
    | some (rep, after) => rep ++ replaceAllWsp fuel after
    | none => b :: replaceAllWsp fuel rest

/-- Tries the `ENCODED_WORD_REGEX` pattern
(`=\?([^?]+)\?([^?]+)\?([^? \t]+)\?=`) anchored at the head; returns the
three captures and the rest after the match. -/
def matchEwAt (s : List Nat) : Option (List Nat × List Nat × List Nat × List Nat) :=
  match s with
  | 61 :: 63 :: r1 =>
    let g1 := r1.takeWhile (fun b => b ≠ 63)
    if g1 = [] then none
    else
      match r1.drop g1.length with
      | 63 :: r2 =>
        let g2 := r2.takeWhile (fun b => b ≠ 63)
        if g2 = [] then none
        else
          match r2.drop g2.length with
          | 63 :: r3 =>
            let g3 := r3.takeWhile (fun b => b ≠ 63 ∧ b ≠ 32 ∧ b ≠ 9)
            if g3 = [] then none
            else
              match r3.drop g3.length with
              | 63 :: 61 :: r4 => some (g1, g2, g3, r4)
              | _ => none
          | _ => none
      | _ => none
  | _ => none

/-- Models `decode_encoded_word_from_captures`. -/
def decode_encoded_word (forLabel : ForLabel) (g1 g2 g3 : List Nat) : List Nat :=
  let charset := lowerBytes g1
  let encoding :=
    if g2 = [113] ∨ g2 = [81] then str2b "quoted-printable"
    else if g2 = [98] ∨ g2 = [66] then str2b "base64"
    else []
  let data :=
    if encoding = str2b "quoted-printable" then
      g3.map (fun b => if b = 95 then 32 else b)
    else g3
  decode_text_data_to_buf forLabel data (some encoding) (some charset) []

/-- Models `Regex::replace_all` with the decoding callback for encoded words. -/
def replaceAllEw (forLabel : ForLabel) : Nat → List Nat → List Nat
  | 0, s => s
  | _ + 1, [] => []
  | fuel + 1, b :: rest =>
    match matchEwAt (b :: rest) with
    | some (g1, g2, g3, after) =>
      decode_encoded_word forLabel g1 g2 g3 ++ replaceAllEw forLabel fuel after
    | none => b :: replaceAllEw forLabel fuel rest

/-- The header-field rewriting of `normalize_email`: if the bytes may
contain an encoded word, collapse inter-word whitespace and then decode
each encoded word; otherwise keep the bytes. -/
def headerRewrite (forLabel : ForLabel) (data : List Nat) : List Nat :=
  if maybe_contains_encoded_word data then
    let collapsed := replaceAllWsp (data.length + 1) data
    replaceAllEw forLabel (collapsed.length + 1) collapsed
  else data

/-- The field map (`HashMap<String, Vec<String>>`), modelled as an
association list of UTF-8 byte keys to lists of byte values. -/
abbrev Fields := List (List Nat × List (List Nat))

/-- Map lookup (`HashMap::get`). -/
def fieldsLookup (fs : Fields) (k : List Nat) : Option (List (List Nat)) :=
  (fs.find? (fun p => p.1 = k)).map (·.2)

/-- Models `fields.entry(name).or_insert(Vec::new()).push(value)`. -/
def fieldsInsert (fs : Fields) (k v : List Nat) : Fields :=
  if (fs.find? (fun p => p.1 = k)).isSome then
    fs.map (fun p => if p.1 = k then (p.1, p.2 ++ [v]) else p)
  else fs ++ [(k, [v])]

/-- The field-map population of `normalize_email`: trim the emitted field
string, split at the first `:` (`splitn(2, ':')`), lowercase the name; a
missing `:` yields the empty value (`unwrap_or("")`). -/
def parseHeaderField (bs : List Nat) : List Nat × List Nat :=
  let t := rustTrim bs
  let name := t.takeWhile (fun b => b ≠ 58)
  let value :=
    match t.drop name.length with
    | 58 :: v => v
    | _ => []
  (lowerBytes name, value)

/-- One step of the `for element in parser` loop of `normalize_email`,
transforming the pair (normalized buffer, field map). -/
def normalizeStep (forLabel : ForLabel) (acc : List Nat × Fields) (e : Element) :
    List Nat × Fields :=
  match e with
  | Element.HeaderField data =>
    let r := headerRewrite forLabel data
    let entry := parseHeaderField r
    (acc.1 ++ r, fieldsInsert acc.2 entry.1 entry.2)
  | Element.Body data encoding content_type charset =>
    match content_type with
    | some ct =>
      if ¬ (ct.take 5 = str2b "text/") then (acc.1 ++ data, acc.2)
      else
        (decode_text_data_to_buf forLabel data encoding charset acc.1, acc.2)
    | none =>
      (decode_text_data_to_buf forLabel data encoding charset acc.1, acc.2)
  | Element.Verbatim data => (acc.1 ++ data, acc.2)

/-- Models `normalize_email`; `none` is a parser panic. -/
def normalize_email (forLabel : ForLabel) (data : List Nat) :
    Option (List Nat × Fields) :=
  (parseAll data).map (fun (es, _) => es.foldl (normalizeStep forLabel) ([], []))

/-! ## lib.rs: the Email object -/

/-- Models `find_empty_line`:
`data.windows(2).position(|w| w[0] == b'\n' && (w[1] == b'\n' || w[1] == b'\r'))`. -/
def find_empty_line : List Nat → Option Nat
  | a :: b :: rest =>
    if a = 10 ∧ (b = 10 ∨ b = 13) then some 0
    else (find_empty_line (b :: rest)).map (· + 1)
  | _ => none

/-- Models `struct Email` (the delivery-related fields are independent of
construction and are modelled with the Maildir code). -/
structure Email where
  data : List Nat
  normalized_data : List Nat
  body_index : Nat
  fields : Fields
deriving DecidableEq, Repr

/-- Models `Email::from_vec`; `none` is a panic during normalization (the
Rust function otherwise always returns `Ok`). -/
def Email.from_vec (forLabel : ForLabel) (v : List Nat) : Option Email :=
  (normalize_email forLabel v).map (fun (n, fs) =>
    { data := v
      normalized_data := n
      body_index := (find_empty_line n).getD n.length
      fields := fs })

/-- Models `Email::data()` (the whole normalized buffer). -/
def Email.whole_data (e : Email) : List Nat := e.normalized_data

/-- Models `Email::header()` (normalized bytes `[0, body_index)`). -/
def Email.header (e : Email) : List Nat := e.normalized_data.take e.body_index

/-- Models `Email::body()` (normalized bytes `[body_index, len)`). -/
def Email.body (e : Email) : List Nat := e.normalized_data.drop e.body_index

/-- Models `Email::raw_data()`. -/
def Email.raw_data (e : Email) : List Nat := e.data

/-- Models `Email::header_field` with the indexing made explicit: the
outer `none` is the panic of `v[0]` on an empty value list; `some none`
is Rust's `None` (field absent); `some (some v)` is `Some(v[0])`. -/
def Email.header_field (e : Email) (name : List Nat) : Option (Option (List Nat)) :=
  match fieldsLookup e.fields (lowerBytes name) with
  | none => some none
  | some vs =>
    match vs with
    | [] => none
    | v :: _ => some (some v)

/-! ## deliver.rs: `Maildir::deliver`

The filesystem is modelled by the set of filenames present in `tmp/` and
`new/`; filenames are abstracted to the successive `Nat`s produced by the
(always succeeding) `EmailFilenameGenerator`, since only their identity
matters here.  Each fallible primitive draws its outcome from an
adversarial environment, indexed by a per-primitive call counter, which
over-approximates every real filesystem behaviour.  Open-directory plus
`sync_all` is one `syncOk` consultation. -/

/-- Outcome of a create/hard-link primitive. -/
inductive OpOut where
  | ok
  | already
  | err
deriving DecidableEq, Repr

/-- The environment: outcome of the k-th call of each fallible primitive. -/
structure FsEnv where
  lockOk : Nat → Bool
  createRes : Nat → OpOut
  writeOk : Nat → Bool
  linkRes : Nat → OpOut
  removeOk : Nat → Bool
  syncOk : Nat → Bool

/-- Delivery state: per-primitive call counters, the generator counter,
and the files present in `tmp/` and `new/`. -/
structure DSt where
  lockC : Nat
  createC : Nat
  writeC : Nat
  linkC : Nat
  removeC : Nat
  syncC : Nat
  gen : Nat
  tmp : List Nat
  new : List Nat
deriving DecidableEq, Repr

/-- Models `Maildir::write_email_to_dir` on `tmp/`: loop generating a
candidate name, exclusively creating it (retry on `AlreadyExists`) and
writing the data.  `Except.ok name` returns the created tmp file;
`Except.error ()` is an `Err` return; the outer `none` means the loop had
not returned within `fuel` iterations.  A failed `write_all` returns via
`?` with the created tmp file left in place. -/
def write_email_to_dir (env : FsEnv) : Nat → DSt → Option (Except Unit Nat) × DSt
  | 0, st => (none, st)
  | fuel + 1, st =>
    if env.lockOk st.lockC then
      let name := st.gen
      let st := { st with lockC := st.lockC + 1, gen := st.gen + 1 }
      let cres := env.createRes st.createC
      let st := { st with createC := st.createC + 1 }
      match cres with
      | OpOut.ok =>
        let st := { st with tmp := name :: st.tmp }
        let wres := env.writeOk st.writeC
        let st := { st with writeC := st.writeC + 1 }
        if wres then (some (Except.ok name), st)
        else (some (Except.error ()), st)
      | OpOut.already => write_email_to_dir env fuel st
      | OpOut.err => (some (Except.error ()), st)
    else (some (Except.error ()), { st with lockC := st.lockC + 1 })

/-- Models `Maildir::deliver`: write the email into `tmp/`, hard-link it
into `new/`, remove the `tmp/` file regardless of the link outcome, retry
the whole loop on link `AlreadyExists`, and (for `FileAndDirSync`) fsync
both directories.  Result conventions as in `write_email_to_dir`. -/
def deliver (env : FsEnv) (dirSync : Bool) : Nat → DSt → Option (Except Unit Nat) × DSt
  | 0, st => (none, st)
  | fuel + 1, st =>
    match write_email_to_dir env (fuel + 1) st with
    | (none, st) => (none, st)
    | (some (Except.error _), st) => (some (Except.error ()), st)
    | (some (Except.ok name), st) =>
      let lres := env.linkRes st.linkC
      let st := { st with linkC := st.linkC + 1 }
      let st := if lres = OpOut.ok then { st with new := name :: st.new } else st
      let rres := env.removeOk st.removeC
      let st := { st with removeC := st.removeC + 1 }
      if rres then
        let st := { st with tmp := st.tmp.erase name }
        match lres with
        | OpOut.ok =>
          if dirSync then
            let s1 := env.syncOk st.syncC
            let st := { st with syncC := st.syncC + 1 }
            if s1 then
              let s2 := env.syncOk st.syncC
              let st := { st with syncC := st.syncC + 1 }
              if s2 then (some (Except.ok name), st)
              else (some (Except.error ()), st)
            else (some (Except.error ()), st)
          else (some (Except.ok name), st)
        | OpOut.already => deliver env dirSync fuel st
        | OpOut.err => (some (Except.error ()), st)
      else (some (Except.error ()), st)

/-! ## Specification-side definitions

These definitions follow the wording of the specification claims (not the
source); they exist to be compared against the source-derived definitions
above. -/

/-- The new active boundary after a closing boundary, as the claim words
it: pop the top Part, then take the child boundary of the nearest
(top-most) remaining part that has one set, or the empty boundary if no
remaining part has one set. -/
def claimedActiveAfterClose (s : ParserState) : List Nat :=
  match (s.part_stack.dropLast).reverse.find? (fun p => p.subpart_boundary.isSome) with
  | some p => p.subpart_boundary.getD []
  | none => []

/-- The field-map entry as the claim words it: key is the lowercased
prefix before the first `:`, value is the suffix after the `:` with only
trailing CR/LF trimmed (leading whitespace and trailing spaces/tabs
kept). -/
def claimHeaderFieldEntry (bs : List Nat) : List Nat × List Nat :=
  let name := bs.takeWhile (fun b => b ≠ 58)
  let value :=
    match bs.drop name.length with
    | 58 :: v => (v.reverse.dropWhile (fun b => b = 10 ∨ b = 13)).reverse
    | _ => []
  (lowerBytes name, value)

/-- The field-map entry as the amended claim words it: the whole field
string is whitespace-trimmed at both ends (so trailing spaces and tabs of
the value are removed too), then split at its first `:`. -/
def amendedHeaderFieldEntry (bs : List Nat) : List Nat × List Nat :=
  let t := rustTrim bs
  let name := t.takeWhile (fun b => b ≠ 58)
  let value :=
    match t.drop name.length with
    | 58 :: v => v
    | _ => []
  (lowerBytes name, value)

/-- The body-split property as the claim words it: position `i` holds a
`\n` immediately followed by `\n` or `\r`. -/
def isSplitAt (data : List Nat) (i : Nat) : Prop :=
  data.get? i = some 10 ∧ (data.get? (i + 1) = some 10 ∨ data.get? (i + 1) = some 13)

instance (data : List Nat) (i : Nat) : Decidable (isSplitAt data i) := by
  unfold isSplitAt; infer_instance

/-- Byte-sequence containment (used to model a case-insensitive literal
regex search after lowercasing both sides). -/
def containsSeq (needle : List Nat) : List Nat → Bool
  | [] => needle = []
  | b :: rest => needle = (b :: rest).take needle.length ∨ containsSeq needle rest

/-! ## Helper lemmas -/

/-- The base64 quartet loop only appends to the output buffer. -/
theorem b64Loop_extends (fuel : Nat) :
    ∀ input out, ∃ t, (b64Loop fuel input out).2 = out ++ t := by
  induction fuel with
  | zero => intro input out; exact ⟨[], by simp [b64Loop]⟩
  | succ n ih =>
    intro input out
    rw [b64Loop]
    split
    · exact ⟨[], by simp⟩
    · exact ⟨[], by simp⟩
    · split
      · exact ⟨[], by simp⟩
      · exact ⟨[], by simp⟩
      · split
        · exact ⟨_, rfl⟩
        · exact ⟨_, rfl⟩
        · split
          · exact ⟨_, rfl⟩
          · exact ⟨_, rfl⟩
          · obtain ⟨t, ht⟩ := ih _ _
            exact ⟨_, by rw [ht, List.append_assoc]⟩

/-- The result buffer of `base64_decode_into_buf` is the buffer computed by
the quartet loop (the padding tail check never touches it). -/
theorem base64_decode_snd (input output : List Nat) :
    (base64_decode_into_buf input output).2 =
      (b64Loop (input.length + 1) input output).2 := by
  unfold base64_decode_into_buf
  split
  · rename_i o heq; rw [heq]
  · rename_i m o heq; rw [heq]
  · rename_i expected rest o heq
    rw [heq]
    split
    · rfl
    · split
      · rfl
      · rfl

/-- The function `base64_decode_into_buf` only appends to the output buffer (on success
and on error alike). -/
theorem base64_decode_extends (input output : List Nat) :
    ∃ t, (base64_decode_into_buf input output).2 = output ++ t := by
  rw [base64_decode_snd]
  exact b64Loop_extends (input.length + 1) input output

/-- On a failing transfer-encoding decode, the attempted buffer still has
the original buffer as a prefix. -/
theorem decodeResult_err_extends (enc data out : List Nat)
    (h : (decodeResult enc data out).1 = true) :
    ∃ t, (decodeResult enc data out).2 = out ++ t := by
  unfold decodeResult at h ⊢
  by_cases h1 : enc = str2b "base64"
  · rw [if_pos h1] at h ⊢
    obtain ⟨t, ht⟩ := base64_decode_extends data out
    rcases hb : base64_decode_into_buf data out with ⟨oc, o⟩
    rw [hb] at ht h
    cases oc with
    | ok => simp at h
    | error m => exact ⟨t, ht⟩
  · rw [if_neg h1] at h ⊢
    by_cases h2 : enc = str2b "quoted-printable"
    · rw [if_pos h2] at h; simp at h
    · rw [if_neg h2] at h ⊢
      by_cases h3 : enc = str2b "8bit" ∨ enc = str2b "binary"
      · rw [if_pos h3] at h; simp at h
      · rw [if_neg h3] at h ⊢
        exact ⟨[], by simp⟩

/-- Truncating an extended buffer back to the original length recovers the
original buffer. -/
theorem resizeTo_append (l t : List Nat) : resizeTo l.length (l ++ t) = l := by
  unfold resizeTo
  rcases t with _ | ⟨a, t⟩
  · simp
  · rw [if_neg (by simp)]
    exact List.take_left l (a :: t)

/-- A found empty-line position leaves room for the two-byte window. -/
theorem find_empty_line_le (l : List Nat) :
    ∀ i, find_empty_line l = some i → i + 2 ≤ l.length := by
  induction l with
  | nil => intro i h; simp [find_empty_line] at h
  | cons a tail ih =>
    intro i h
    rcases tail with _ | ⟨b, rest⟩
    · simp [find_empty_line] at h
    · rw [find_empty_line] at h
      split at h
      · cases h; simp
      · rw [Option.map_eq_some'] at h
        obtain ⟨j, hj, hji⟩ := h
        have := ih j hj
        simp only [List.length_cons] at this ⊢
        omega

/-- Correctness of `find_empty_line` against the claim-side predicate: a
`none` result means no split position exists; a `some i` result is the
first split position. -/
theorem find_empty_line_spec (l : List Nat) :
    (find_empty_line l = none → ∀ j, ¬ isSplitAt l j) ∧
    (∀ i, find_empty_line l = some i →
      isSplitAt l i ∧ ∀ j, j < i → ¬ isSplitAt l j) := by
  induction l with
  | nil =>
    refine ⟨fun _ j => ?_, fun i h => by simp [find_empty_line] at h⟩
    simp [isSplitAt]
  | cons a tail ih =>
    rcases tail with _ | ⟨b, rest⟩
    · refine ⟨fun _ j => ?_, fun i h => by simp [find_empty_line] at h⟩
      rcases j with _ | j <;> simp [isSplitAt]
    · constructor
      · intro h j
        rw [find_empty_line] at h
        split at h
        · cases h
        · rw [Option.map_eq_none'] at h
          rcases j with _ | j
          · rename_i hcond
            simp only [isSplitAt, List.get?] at *
            intro hc
            exact hcond ⟨by cases hc.1; rfl, by rcases hc.2 with h714 | h714 <;>
              [left; right] <;> cases h714 <;> rfl⟩
          · have := (ih).1 h j
            simpa [isSplitAt] using this
      · intro i h
        rw [find_empty_line] at h
        split at h
        · cases h
          rename_i hcond
          constructor
          · simp only [isSplitAt, List.get?]
            exact ⟨by rw [hcond.1], by rcases hcond.2 with h714 | h714 <;>
              [left; right] <;> rw [h714]⟩
          · intro j hj; omega
        · rw [Option.map_eq_some'] at h
          obtain ⟨k, hk, hki⟩ := h
          obtain ⟨hsplit, hmin⟩ := (ih).2 k hk
          constructor
          · subst hki
            simpa [isSplitAt] using hsplit
          · intro j hj
            rcases j with _ | j
            · rename_i hcond
              simp only [isSplitAt, List.get?]
              intro hc
              exact hcond ⟨by cases hc.1; rfl, by rcases hc.2 with h714 | h714 <;>
                [left; right] <;> cases h714 <;> rfl⟩
            · have := hmin j (by omega)
              simpa [isSplitAt] using this

/-- Looking up the updated key after the sibling-update map of
`fieldsInsert`. -/
theorem lookup_map_update (fs : Fields) (k v : List Nat) :
    fieldsLookup (fs.map (fun p => if p.1 = k then (p.1, p.2 ++ [v]) else p)) k
      = (fieldsLookup fs k).map (fun l => l ++ [v]) := by
  induction fs with
  | nil => simp [fieldsLookup]
  | cons p rest ih =>
    unfold fieldsLookup at ih ⊢
    by_cases hp : p.1 = k
    · rw [List.map_cons, if_pos hp]
      rw [List.find?_cons_of_pos _ (by simp [hp]), List.find?_cons_of_pos _ (by simp [hp])]
      simp
    · rw [List.map_cons, if_neg hp]
      rw [List.find?_cons_of_neg _ (by simp [hp]), List.find?_cons_of_neg _ (by simp [hp])]
      exact ih

/-- Looking up a different key after the sibling-update map of
`fieldsInsert`. -/
theorem lookup_map_update_other (fs : Fields) (k v k' : List Nat) (hk : k' ≠ k) :
    fieldsLookup (fs.map (fun p => if p.1 = k then (p.1, p.2 ++ [v]) else p)) k'
      = fieldsLookup fs k' := by
  induction fs with
  | nil => simp [fieldsLookup]
  | cons p rest ih =>
    unfold fieldsLookup at ih ⊢
    by_cases hp : p.1 = k
    · have hp' : ¬ p.1 = k' := by rw [hp]; exact fun h => hk h.symm
      rw [List.map_cons, if_pos hp]
      rw [List.find?_cons_of_neg _ (by simp [hp']), List.find?_cons_of_neg _ (by simp [hp'])]
      exact ih
    · by_cases hq : p.1 = k'
      · rw [List.map_cons, if_neg hp]
        rw [List.find?_cons_of_pos _ (by simp [hq]), List.find?_cons_of_pos _ (by simp [hq])]
      · rw [List.map_cons, if_neg hp]
        rw [List.find?_cons_of_neg _ (by simp [hq]), List.find?_cons_of_neg _ (by simp [hq])]
        exact ih

/-- Looking up a key after appending a fresh entry. -/
theorem lookup_append_new (fs : Fields) (k v k' : List Nat) :
    fieldsLookup (fs ++ [(k, [v])]) k' =
      match fieldsLookup fs k' with
      | some l => some l
      | none => if k' = k then some [v] else none := by
  induction fs with
  | nil =>
    by_cases hk : k' = k
    · simp only [List.nil_append, fieldsLookup]
      rw [List.find?_cons_of_pos _ (by simp [hk.symm])]
      simp [hk]
    · simp only [List.nil_append, fieldsLookup]
      rw [List.find?_cons_of_neg _ (by simp; exact fun h => hk h.symm)]
      simp [hk]
  | cons p rest ih =>
    unfold fieldsLookup at ih ⊢
    by_cases hp : p.1 = k'
    · rw [List.cons_append]
      rw [List.find?_cons_of_pos _ (by simp [hp]), List.find?_cons_of_pos _ (by simp [hp])]
      simp
    · rw [List.cons_append]
      rw [List.find?_cons_of_neg _ (by simp [hp]), List.find?_cons_of_neg _ (by simp [hp])]
      exact ih

/-- A `some` lookup is the same as a found entry. -/
theorem fieldsLookup_isSome (fs : Fields) (k : List Nat) :
    (fieldsLookup fs k).isSome = ((fs.find? (fun p => p.1 = k)).isSome) := by
  unfold fieldsLookup
  rcases fs.find? (fun p => p.1 = k) with _ | p <;> simp

/-- Inserting with `fieldsInsert` appends the value to the list at the key. -/
theorem fieldsLookup_insert_self (fs : Fields) (k v : List Nat) :
    fieldsLookup (fieldsInsert fs k v) k =
      some ((fieldsLookup fs k).getD [] ++ [v]) := by
  unfold fieldsInsert
  by_cases hs : ((fs.find? (fun p => p.1 = k)).isSome : Prop)
  · rw [if_pos hs, lookup_map_update]
    have h2 : (fieldsLookup fs k).isSome := by rw [fieldsLookup_isSome]; exact hs
    obtain ⟨l, hl⟩ := Option.isSome_iff_exists.mp h2
    rw [hl]
    rfl
  · rw [if_neg hs, lookup_append_new]
    have h2 : fieldsLookup fs k = none := by
      rcases h : fieldsLookup fs k with _ | l
      · rfl
      · exfalso
        apply hs
        rw [← fieldsLookup_isSome, h]
        rfl
    rw [h2]
    simp

/-- Inserting with `fieldsInsert` leaves every other key unchanged. -/
theorem fieldsLookup_insert_other (fs : Fields) (k v k' : List Nat) (hk : k' ≠ k) :
    fieldsLookup (fieldsInsert fs k v) k' = fieldsLookup fs k' := by
  unfold fieldsInsert
  by_cases hs : ((fs.find? (fun p => p.1 = k)).isSome : Prop)
  · rw [if_pos hs, lookup_map_update_other _ _ _ _ hk]
  · rw [if_neg hs, lookup_append_new]
    rcases h : fieldsLookup fs k' with _ | l
    · simp [hk]
    · rfl

/-- Well-formedness of the field map: every stored value list is
non-empty. -/
def fieldsWF (fs : Fields) : Prop := ∀ p ∈ fs, p.2 ≠ []

/-- Insertion preserves field-map well-formedness. -/
theorem fieldsInsert_wf (fs : Fields) (k v : List Nat) (h : fieldsWF fs) :
    fieldsWF (fieldsInsert fs k v) := by
  intro p hp
  unfold fieldsInsert at hp
  split at hp
  · rw [List.mem_map] at hp
    obtain ⟨q, hq, hpq⟩ := hp
    by_cases hq1 : q.1 = k
    · rw [if_pos hq1] at hpq; subst hpq; simp
    · rw [if_neg hq1] at hpq; subst hpq; exact h q hq
  · rw [List.mem_append] at hp
    rcases hp with hp | hp
    · exact h p hp
    · simp at hp; subst hp; simp

/-- Every value list in the field map built by the normalizer fold is
non-empty. -/
theorem normalizeFold_wf (forLabel : ForLabel) (es : List Element) :
    ∀ acc : List Nat × Fields, fieldsWF acc.2 →
      fieldsWF (es.foldl (normalizeStep forLabel) acc).2 := by
  induction es with
  | nil => intro acc h; exact h
  | cons e rest ih =>
    intro acc h
    rw [List.foldl_cons]
    refine ih _ ?_
    rcases e with data | ⟨data, enc, ct, ch⟩ | data
    · exact fieldsInsert_wf _ _ _ h
    · rcases ct with _ | ct
      · exact h
      · by_cases hct : ¬ (ct.take 5 = str2b "text/") <;>
          simp [normalizeStep, hct] <;> exact h
    · exact h

/-- The rescan loop of `end_part` computes the boundary of the bottom-most
part that has one set (the first in bottom-to-top stack order), and leaves
the active boundary unchanged when no part has one. -/
theorem rescanActive_eq (stack : List Part) (active : List Nat) :
    rescanActive stack active =
      ((stack.filterMap Part.subpart_boundary).head?).getD active := by
  induction stack with
  | nil => simp [rescanActive]
  | cons p rest ih =>
    unfold rescanActive at ih ⊢
    rw [List.reverse_cons, List.foldl_append]
    rcases hp : p.subpart_boundary with _ | b
    · simp only [List.foldl_cons, List.foldl_nil, hp]
      rw [ih]
      simp [List.filterMap_cons, hp]
    · simp [List.filterMap_cons, hp]

/-! ## Concrete inputs and instantiations used by the claim theorems -/

/-- A concrete instantiation of the external charset facility: every label
unknown (`Charset::for_label` returns `None`).  In every concrete input
below this choice is indistinguishable from the real `charset` crate: the
inputs are pure ASCII, for which the crate's `decode` returns
`Cow::Borrowed` (bytes unchanged), exactly as skipping the conversion
does. -/
def charsetStub : ForLabel := fun _ => none

/-- The exact input of the repository test
`test_boundaries::boundary_begin_after_end_is_parsed`. -/
def beginAfterEndInput : List Nat :=
  str2b ("Return-Path: <me@source.com>\nTo: Destination <someone.else@destination.com>\n" ++
    "Content-type: multipart/alternative; boundary=\"XtT01VFrJIenjlg+ZCXSSWq4\"\n\n" ++
    "--XtT01VFrJIenjlg+ZCXSSWq4--\n\n--XtT01VFrJIenjlg+ZCXSSWq4\n")

/-- The exact input of the repository test
`test_boundaries::only_exact_boundary_lines_are_parsed`. -/
def fakeBoundaryInput : List Nat :=
  str2b ("Return-Path: <me@source.com>\nTo: Destination <someone.else@destination.com>\n" ++
    "Content-type: multipart/alternative; boundary=\"QWFCYkN\"\n\n" ++
    "--QWFCYkN\nContent-transfer-encoding: base64\n\n--QWFCYkNj\n\n--QWFCYkN\n")

/-- A nested multipart email whose last line closes the inner boundary. -/
def nestedCloseInput : List Nat :=
  str2b ("Content-Type: multipart/mixed; boundary=b1\n\n--b1\n" ++
    "Content-Type: multipart/digest; boundary=b2\n\n--b2\n\n--b2--\n")

/-- The input `nestedCloseInput` without its final closing-boundary line. -/
def nestedPreInput : List Nat :=
  str2b ("Content-Type: multipart/mixed; boundary=b1\n\n--b1\n" ++
    "Content-Type: multipart/digest; boundary=b2\n\n--b2\n\n")

/-- The parser state reached after consuming `nestedPreInput`: the outer
part declares child boundary `b1`, the middle part declares `b2`, a fresh
top part is open, and the active boundary is `b2`. -/
def nestedPreState : ParserState :=
  { part_stack := [⟨none, none, none, some (str2b "b1")⟩,
                   ⟨none, none, none, some (str2b "b2")⟩, Part.new]
    in_header := false
    active_boundary := str2b "b2" }

/-! ## Claim theorems -/

/-- Claim C1 (code bug): on the exact input of the repository's own test
`boundary_begin_after_end_is_parsed` — a closing boundary line followed by
another opening boundary line of the same name — the parser panics
(`part_stack.last().unwrap()` in `begin_part` after `end_part` popped the
only part), so `Email::from_vec` does not return an `Email`.  The `none`
result holds for every behaviour of the external charset facility. -/
theorem claim_C1_begin_after_end_panics (forLabel : ForLabel) :
    Email.from_vec forLabel beginAfterEndInput = none := by
  have h : parseAll beginAfterEndInput = none := by rfl
  simp [Email.from_vec, normalize_email, h]

/-- Claim C2 (code bug): `is_boundary_line` uses `starts_with`, so with
active boundary `QWFCYkN` the body line `--QWFCYkNj` IS classified as a
boundary line, and on the exact input of the repository test
`only_exact_boundary_lines_are_parsed` the decoded content `AaBbCc` does
not appear in the normalized body (the test's case-insensitive search must
fail). -/
theorem claim_C2_fake_boundary_is_boundary :
    is_boundary_line (str2b "--QWFCYkNj\n") (str2b "QWFCYkN") = true ∧
    (Email.from_vec charsetStub fakeBoundaryInput).map
      (fun e => containsSeq (lowerBytes (str2b "AaBbCc")) (lowerBytes e.body))
      = some false := by
  exact ⟨by rfl, by rfl⟩

/-- Claim C3 counterexample: decoding `YWJjZA=` into an empty buffer fails
with a padding error but leaves the four partially decoded bytes `abcd`
in the buffer, so the buffer does not have its pre-call length. -/
theorem claim_C3_counterexample :
    (base64_decode_into_buf (str2b "YWJjZA=") []).1 =
      DecodeOutcome.error "Invalid base64 padding" ∧
    (base64_decode_into_buf (str2b "YWJjZA=") []).2 = str2b "abcd" ∧
    ¬ (base64_decode_into_buf (str2b "YWJjZA=") []).2.length =
      ([] : List Nat).length := by
  refine ⟨by rfl, by rfl, by decide⟩

/-- Claim C3 (amended): on every call (error or success)
`base64_decode_into_buf` leaves the pre-call buffer contents as a prefix,
appending only the already decoded bytes; truncating back to the pre-call
length (as the caller `decode_text_data_to_buf` does) recovers the
original buffer exactly. -/
theorem claim_C3_error_appends_only (input output : List Nat) :
    (∃ t, (base64_decode_into_buf input output).2 = output ++ t) ∧
    resizeTo output.length (base64_decode_into_buf input output).2 = output := by
  obtain ⟨t, ht⟩ := base64_decode_extends input output
  exact ⟨⟨t, ht⟩, by rw [ht, resizeTo_append]⟩

/-- Claim C4 counterexample: the state `nestedPreState` is reached by
parsing `nestedPreInput`; the next line `--b2--` is a closing boundary
there; the code makes `b1` the new active boundary (the rescan loop's last
assignment wins and the popped-to top part's child boundary is cleared
first), while the claim's nearest-remaining-part rule yields `b2`. -/
theorem claim_C4_counterexample :
    (parseAll nestedPreInput).map (fun r => r.2) = some nestedPreState ∧
    is_boundary_line (str2b "--b2--\n") nestedPreState.active_boundary = true ∧
    endsWithDashes (slice_trim_end_newline (str2b "--b2--\n")) = true ∧
    (parseAll nestedCloseInput).map (fun r => r.2.active_boundary) =
      some (str2b "b1") ∧
    (end_part nestedPreState).active_boundary = str2b "b1" ∧
    claimedActiveAfterClose nestedPreState = str2b "b2" ∧
    ¬ (str2b "b1" = str2b "b2") := by
  refine ⟨by rfl, by rfl, by rfl, by rfl, by rfl, by rfl, by decide⟩

/-- Claim C4 (amended): when the parser consumes a closing boundary it
pops the top part and clears the child boundary of the new top part; the
new active boundary then equals the child boundary of the bottom-most
remaining part that has one set (the first in bottom-to-top stack order),
and stays unchanged — it is not reset to empty — when no remaining part
has one set. -/
theorem claim_C4_bottom_most_boundary_wins (s : ParserState) :
    (end_part s).active_boundary =
      (((end_part s).part_stack.filterMap Part.subpart_boundary).head?).getD
        s.active_boundary := by
  simp only [end_part]
  rw [rescanActive_eq]

/-- Claim C6 counterexample: for the email `"Subject: hi \n\n"` (note the
trailing space of the value) the stored value is `" hi"` — the trailing
space is trimmed along with the CR/LF — while the claim's rule (trailing
CR/LF-only trimming) would store `" hi "`. -/
theorem claim_C6_counterexample :
    (Email.from_vec charsetStub (str2b "Subject: hi \n\n")).map
      (fun e => fieldsLookup e.fields (str2b "subject"))
      = some (some [str2b " hi"]) ∧
    (claimHeaderFieldEntry (str2b "Subject: hi \n")).2 = str2b " hi " ∧
    ¬ (str2b " hi" = str2b " hi ") := by
  refine ⟨by rfl, by rfl, by decide⟩

/-- Claim C6 (amended): for every emitted header field, the bytes appended
to the normalized buffer are the (rewritten) field bytes, and the field
map gains exactly one value, computed by trimming whitespace from both
ends of the whole field string and splitting at the first `:` — the key is
the lowercased prefix, the value is the suffix (leading whitespace of the
value after the `:` is preserved, but trailing spaces and tabs are
trimmed, not only CR/LF); the value is appended to the list at the key,
other keys being unchanged.  (Stated for fields without encoded words, for
which the rewrite step is the identity.) -/
theorem claim_C6_field_entry (forLabel : ForLabel) (normalized : List Nat)
    (fields : Fields) (data : List Nat)
    (h : maybe_contains_encoded_word data = false) :
    (normalizeStep forLabel (normalized, fields) (Element.HeaderField data)).1
      = normalized ++ data ∧
    fieldsLookup
      (normalizeStep forLabel (normalized, fields) (Element.HeaderField data)).2
      (amendedHeaderFieldEntry data).1
      = some ((fieldsLookup fields (amendedHeaderFieldEntry data).1).getD []
          ++ [(amendedHeaderFieldEntry data).2]) ∧
    ∀ k, k ≠ (amendedHeaderFieldEntry data).1 →
      fieldsLookup
        (normalizeStep forLabel (normalized, fields) (Element.HeaderField data)).2 k
        = fieldsLookup fields k := by
  have hr : headerRewrite forLabel data = data := by
    unfold headerRewrite
    rw [h]
    simp
  have hpe : parseHeaderField data = amendedHeaderFieldEntry data := by
    unfold parseHeaderField amendedHeaderFieldEntry
    rfl
  refine ⟨?_, ?_, ?_⟩
  · simp [normalizeStep, hr]
  · simp only [normalizeStep, hr, hpe]
    exact fieldsLookup_insert_self fields _ _
  · intro k hk
    simp only [normalizeStep, hr, hpe]
    exact fieldsLookup_insert_other fields _ _ k hk

/-- Claim C6 amended-theorem witness at a concrete field. -/
theorem claim_C6_field_entry_witness :
    fieldsLookup
      (normalizeStep charsetStub ([], []) (Element.HeaderField (str2b "To: x\n"))).2
      (str2b "to") = some [str2b " x"] := by
  have h := (claim_C6_field_entry charsetStub [] [] (str2b "To: x\n") (by rfl)).2.1
  simpa using h

/-- Claim C7: for every constructed Email, header ++ body equals the whole
normalized buffer, and the body split index is at most the buffer
length. -/
theorem claim_C7_header_body_partition (forLabel : ForLabel) (v : List Nat)
    (e : Email) (h : Email.from_vec forLabel v = some e) :
    Email.header e ++ Email.body e = Email.whole_data e ∧
    e.body_index ≤ e.normalized_data.length := by
  constructor
  · exact List.take_append_drop e.body_index e.normalized_data
  · unfold Email.from_vec at h
    rw [Option.map_eq_some'] at h
    obtain ⟨⟨n, fs⟩, hn, he⟩ := h
    cases he
    rcases hf : find_empty_line n with _ | i
    · simp [hf]
    · simp only [hf, Option.getD_some]
      have := find_empty_line_le n i hf
      omega

/-- Claim C7 witness: the empty email. -/
theorem claim_C7_witness :
    Email.header ⟨[], [], 0, []⟩ ++ Email.body ⟨[], [], 0, []⟩ =
      Email.whole_data ⟨[], [], 0, []⟩ ∧
    (Email.mk [] [] 0 []).body_index ≤ (Email.mk [] [] 0 []).normalized_data.length :=
  claim_C7_header_body_partition charsetStub [] ⟨[], [], 0, []⟩ (by rfl)

/-- Claim C8: the body split index of a constructed Email is the first
position of a `\n` immediately followed by `\n` or `\r` in the
normalized buffer, or the buffer length if no such position exists. -/
theorem claim_C8_body_split_first_empty_line (forLabel : ForLabel) (v : List Nat)
    (e : Email) (h : Email.from_vec forLabel v = some e) :
    (isSplitAt e.normalized_data e.body_index ∧
      ∀ j, j < e.body_index → ¬ isSplitAt e.normalized_data j) ∨
    (e.body_index = e.normalized_data.length ∧
      ∀ j, ¬ isSplitAt e.normalized_data j) := by
  unfold Email.from_vec at h
  rw [Option.map_eq_some'] at h
  obtain ⟨⟨n, fs⟩, hn, he⟩ := h
  cases he
  rcases hf : find_empty_line n with _ | i
  · right
    refine ⟨?_, (find_empty_line_spec n).1 hf⟩
    simp [hf]
  · left
    simp only [hf, Option.getD_some]
    exact (find_empty_line_spec n).2 i hf

/-- Claim C8 witness: for the email `"A: x\n\nbody\n"` the split index 4
really is a split position (applying the claim theorem and discarding the
impossible right disjunct). -/
theorem claim_C8_witness : isSplitAt (str2b "A: x\n\nbody\n") 4 := by
  have h := claim_C8_body_split_first_empty_line charsetStub
    (str2b "A: x\n\nbody\n")
    ⟨str2b "A: x\n\nbody\n", str2b "A: x\n\nbody\n", 4,
      [(str2b "a", [str2b " x"])]⟩ (by rfl)
  rcases h with ⟨hs, _⟩ | ⟨hlen, _⟩
  · exact hs
  · exact absurd hlen (by decide)

/-- Claim C10: in a constructed Email every stored value list is
non-empty, so `header_field` never indexes out of bounds: its checked
model never returns the panic value `none`. -/
theorem claim_C10_header_field_total (forLabel : ForLabel) (v : List Nat)
    (e : Email) (h : Email.from_vec forLabel v = some e) (name : List Nat) :
    Email.header_field e name ≠ none := by
  have hwf : fieldsWF e.fields := by
    unfold Email.from_vec normalize_email at h
    rw [Option.map_eq_some'] at h
    obtain ⟨⟨n, fs⟩, hn, he⟩ := h
    rw [Option.map_eq_some'] at hn
    obtain ⟨⟨es, st⟩, _, hfold⟩ := hn
    cases he
    have : (n, fs) = ((es, st).1.foldl (normalizeStep forLabel) ([], [])) := hfold.symm
    have hfs : fs = ((es.foldl (normalizeStep forLabel) ([], [])).2) := by
      rw [← this]
    rw [hfs]
    exact normalizeFold_wf forLabel es ([], []) (by intro p hp; cases hp)
  unfold Email.header_field
  rcases hl : fieldsLookup e.fields (lowerBytes name) with _ | vs
  · simp
  · rcases vs with _ | ⟨v0, vs⟩
    · exfalso
      rw [fieldsLookup] at hl
      rw [Option.map_eq_some'] at hl
      obtain ⟨p, hp, hp2⟩ := hl
      exact hwf p (List.mem_of_find?_eq_some hp) hp2
    · simp

/-- Claim C10 witness: looking up any field of the empty email does not
hit the panic value. -/
theorem claim_C10_witness :
    Email.header_field ⟨[], [], 0, []⟩ (str2b "to") ≠ none :=
  claim_C10_header_field_total charsetStub [] ⟨[], [], 0, []⟩ (by rfl) (str2b "to")

/-- Claim C9: processing a `Body` element whose content type is text or
unset, when the transfer-encoding decode fails (a failing base64 run, or
any unrecognized non-null label), appends exactly the raw element bytes:
the partially decoded output is truncated back to the pre-element length,
the raw bytes are copied through, charset conversion is skipped (for every
behaviour of the external charset facility), and the field map is
untouched. -/
theorem claim_C9_decode_failure_raw_copy (forLabel : ForLabel)
    (acc : List Nat × Fields) (data enc : List Nat)
    (ct charset : Option (List Nat))
    (hct : ct = none ∨ ∃ c, ct = some c ∧ c.take 5 = str2b "text/")
    (hfail : (decodeResult enc data acc.1).1 = true) :
    normalizeStep forLabel acc (Element.Body data (some enc) ct charset)
      = (acc.1 ++ data, acc.2) := by
  have hdec : decode_text_data_to_buf forLabel data (some enc) charset acc.1
      = acc.1 ++ data := by
    obtain ⟨t, ht⟩ := decodeResult_err_extends enc data acc.1 hfail
    rcases hd : decodeResult enc data acc.1 with ⟨isErr, o⟩
    rw [hd] at ht hfail
    simp only at ht hfail
    subst hfail
    simp only [decode_text_data_to_buf, hd]
    rw [ht]
    simp [resizeTo_append]
  rcases hct with hct | ⟨c, hc, hct⟩
  · subst hct
    simp [normalizeStep, hdec]
  · subst hc
    simp [normalizeStep, hct, hdec]

/-- Claim C9 witness: a text-typeless body claiming base64 with the
invalid run `YWJjZA====` survives raw. -/
theorem claim_C9_witness :
    normalizeStep charsetStub ([], [])
      (Element.Body (str2b "YWJjZA====") (some (str2b "base64")) none none)
      = (str2b "YWJjZA====", []) := by
  have h := claim_C9_decode_failure_raw_copy charsetStub ([], [])
    (str2b "YWJjZA====") (str2b "base64") none none (Or.inl rfl) (by rfl)
  simpa using h

/-- An adversarial filesystem environment whose every `write_all` fails
(`ENOSPC`-like), everything else succeeding. -/
def env0 : FsEnv :=
  ⟨fun _ => true, fun _ => OpOut.ok, fun _ => false, fun _ => OpOut.ok,
   fun _ => true, fun _ => true⟩

/-- The initial delivery state: fresh counters, empty `tmp/` and `new/`. -/
def st0 : DSt := ⟨0, 0, 0, 0, 0, 0, 0, [], []⟩

/-- A filesystem environment in which every primitive succeeds. -/
def envAll : FsEnv :=
  ⟨fun _ => true, fun _ => OpOut.ok, fun _ => true, fun _ => OpOut.ok,
   fun _ => true, fun _ => true⟩

/-- Claim C5 counterexample: when the data write to the tmp file fails,
`Maildir::deliver` returns an error (the process does not die) with the
created file still present in `tmp/` — `write_email_to_dir` propagates the
`write_all` error with `?` before any cleanup. -/
theorem claim_C5_counterexample :
    (deliver env0 true 1 st0).1 = some (Except.error ()) ∧
    (deliver env0 true 1 st0).2.tmp = [0] ∧
    st0.tmp = [] := ⟨rfl, rfl, rfl⟩

/-- A successful `write_email_to_dir` adds exactly the returned file to
`tmp/`. -/
theorem write_ok_tmp (env : FsEnv) :
    ∀ fuel st name st',
      write_email_to_dir env fuel st = (some (Except.ok name), st') →
      st'.tmp = name :: st.tmp := by
  intro fuel
  induction fuel with
  | zero => intro st name st' h; simp [write_email_to_dir] at h
  | succ n ih =>
    intro st name st' h
    rw [write_email_to_dir] at h
    by_cases hl : (env.lockOk st.lockC : Prop)
    · rw [if_pos hl] at h
      simp only at h
      split at h
      · split at h
        · simp only [Prod.mk.injEq, Option.some.injEq, Except.ok.injEq] at h
          obtain ⟨hname, hst⟩ := h
          rw [← hst, ← hname]
        · simp at h
      · have := ih _ name st' h
        simpa using this
      · simp at h
    · rw [if_neg hl] at h
      simp at h

/-- When every data write succeeds, a failing `write_email_to_dir` leaves
`tmp/` unchanged (the error came from the lock or the exclusive create,
before any file was created). -/
theorem write_err_tmp (env : FsEnv) (hwk : ∀ k, env.writeOk k = true) :
    ∀ fuel st st',
      write_email_to_dir env fuel st = (some (Except.error ()), st') →
      st'.tmp = st.tmp := by
  intro fuel
  induction fuel with
  | zero => intro st st' h; simp [write_email_to_dir] at h
  | succ n ih =>
    intro st st' h
    rw [write_email_to_dir] at h
    by_cases hl : (env.lockOk st.lockC : Prop)
    · rw [if_pos hl] at h
      simp only at h
      split at h
      · rw [hwk] at h
        simp only [if_true] at h
        simp at h
      · have := ih _ st' h
        simpa using this
      · simp only [Prod.mk.injEq] at h
        rw [← h.2]
    · rw [if_neg hl] at h
      simp only [Prod.mk.injEq] at h
      rw [← h.2]

/-- Claim C5 (amended): after a `Maildir::deliver` attempt that returns,
`tmp/` holds exactly the files it held before the call, provided the
attempt succeeded, or provided its failure was not in the data-write or
tmp-remove step (in every loop iteration the tmp file is removed after the
hard-link attempt regardless of the link outcome; only a failing
`write_all` or a failing `remove_file` can leave the tmp file behind
without the process dying). -/
theorem claim_C5_tmp_is_cleaned (env : FsEnv) (dirSync : Bool) :
    ∀ fuel st res st',
      deliver env dirSync fuel st = (some res, st') →
      ((∃ n, res = Except.ok n) ∨
        ((∀ k, env.writeOk k = true) ∧ (∀ k, env.removeOk k = true))) →
      st'.tmp = st.tmp := by
  intro fuel
  induction fuel with
  | zero => intro st res st' h _; simp [deliver] at h
  | succ n ih =>
    intro st res st' h hok
    rw [deliver] at h
    split at h
    · simp at h
    · rename_i st1 heq
      simp only [Prod.mk.injEq, Option.some.injEq] at h
      obtain ⟨hres, hst⟩ := h
      rcases hok with ⟨n', hn⟩ | ⟨hwk, hrm⟩
      · rw [← hres] at hn; cases hn
      · have := write_err_tmp env hwk (n + 1) st st1 heq
        rw [← hst, this]
    · rename_i name st1 heq
      have h1 : st1.tmp = name :: st.tmp := write_ok_tmp env (n + 1) st name st1 heq
      simp only at h
      rcases hlk : env.linkRes st1.linkC
      case ok =>
        rw [hlk] at h
        simp only [reduceCtorEq, if_true, if_false, eq_self_iff_true] at h
        split at h
        · split at h
          · split at h
            · split at h
              · simp only [Prod.mk.injEq, Option.some.injEq] at h
                rw [← h.2]
                simp [h1]
              · simp only [Prod.mk.injEq, Option.some.injEq] at h
                rw [← h.2]
                simp [h1]
            · simp only [Prod.mk.injEq, Option.some.injEq] at h
              rw [← h.2]
              simp [h1]
          · simp only [Prod.mk.injEq, Option.some.injEq] at h
            rw [← h.2]
            simp [h1]
        · rename_i hrm1
          simp only [Prod.mk.injEq, Option.some.injEq] at h
          rcases hok with ⟨n', hn⟩ | ⟨hwk, hrm⟩
          · rw [← h.1] at hn; cases hn
          · exact absurd (hrm st1.removeC) (by simpa using hrm1)
      case already =>
        rw [hlk] at h
        simp only [reduceCtorEq, if_true, if_false, eq_self_iff_true] at h
        split at h
        · have h2 := ih _ res st' h hok
          rw [h2]
          simp [h1]
        · rename_i hrm1
          simp only [Prod.mk.injEq, Option.some.injEq] at h
          rcases hok with ⟨n', hn⟩ | ⟨hwk, hrm⟩
          · rw [← h.1] at hn; cases hn
          · exact absurd (hrm st1.removeC) (by simpa using hrm1)
      case err =>
        rw [hlk] at h
        simp only [reduceCtorEq, if_true, if_false, eq_self_iff_true] at h
        split at h
        · simp only [Prod.mk.injEq, Option.some.injEq] at h
          rw [← h.2]
          simp [h1]
        · rename_i hrm1
          simp only [Prod.mk.injEq, Option.some.injEq] at h
          rcases hok with ⟨n', hn⟩ | ⟨hwk, hrm⟩
          · rw [← h.1] at hn; cases hn
          · exact absurd (hrm st1.removeC) (by simpa using hrm1)

/-- Claim C5 amended-theorem witness: an all-successful delivery from the
fresh state leaves `tmp/` as it was. -/
theorem claim_C5_witness :
    (⟨1, 1, 1, 1, 1, 2, 1, [], [0]⟩ : DSt).tmp = st0.tmp :=
  claim_C5_tmp_is_cleaned envAll true 1 st0 (Except.ok 0)
    ⟨1, 1, 1, 1, 1, 2, 1, [], [0]⟩ (by rfl) (Or.inl ⟨0, rfl⟩)

end Mda
